import Mathlib

/-!
Verification of the futures-position analysis engine
(`futures_position_analysis.py`, `app_streamlit.py`).

The numeric domain of the Python code is IEEE-754 double precision as used
by pandas: values are either finite, ±infinity, or NaN.  We model this with
`PF` (a rational for the finite case), together with the arithmetic and
comparison semantics the analysed code actually exercises (NaN propagates
through arithmetic and compares false; division of a nonzero finite value
by zero yields a signed infinity; 0/0 yields NaN).
-/

/-- Model of a pandas/NumPy double: NaN, +∞, −∞, or a finite value
(idealised as a rational). -/
inductive PF where
  | nan : PF
  | posInf : PF
  | negInf : PF
  | fin : ℚ → PF
deriving DecidableEq, Repr

namespace PF

def isNan : PF → Bool
  | nan => true
  | _ => false

def isFinite : PF → Bool
  | fin _ => true
  | _ => false

/-- IEEE addition (restricted to the cases the code can reach). -/
def add (x y : PF) : PF :=
  match x with
  | nan => nan
  | posInf =>
      match y with
      | nan => nan
      | negInf => nan
      | _ => posInf
  | negInf =>
      match y with
      | nan => nan
      | posInf => nan
      | _ => negInf
  | fin a =>
      match y with
      | nan => nan
      | posInf => posInf
      | negInf => negInf
      | fin b => fin (a + b)

def neg : PF → PF
  | nan => nan
  | posInf => negInf
  | negInf => posInf
  | fin a => fin (-a)

def sub (a b : PF) : PF := add a (neg b)

/-- IEEE division.  Finite/0 gives a signed infinity (+0 divisor), 0/0 gives
NaN; these are exactly the cases pandas produces for the seat statistics. -/
def div (x y : PF) : PF :=
  match x with
  | nan => nan
  | posInf =>
      match y with
      | fin b => if b < 0 then negInf else posInf
      | _ => nan
  | negInf =>
      match y with
      | fin b => if b < 0 then posInf else negInf
      | _ => nan
  | fin a =>
      match y with
      | nan => nan
      | posInf => fin 0
      | negInf => fin 0
      | fin b =>
          if b = 0 then
            if a = 0 then nan else if a > 0 then posInf else negInf
          else fin (a / b)

/-- IEEE `<`: NaN compares false against everything. -/
def lt (x y : PF) : Bool :=
  match x with
  | nan => false
  | posInf => false
  | negInf =>
      match y with
      | nan => false
      | negInf => false
      | _ => true
  | fin a =>
      match y with
      | nan => false
      | posInf => true
      | negInf => false
      | fin b => decide (a < b)

/-- IEEE `≤`: NaN compares false against everything. -/
def le (x y : PF) : Bool :=
  match x with
  | nan => false
  | negInf =>
      match y with
      | nan => false
      | _ => true
  | posInf =>
      match y with
      | posInf => true
      | _ => false
  | fin a =>
      match y with
      | nan => false
      | posInf => true
      | negInf => false
      | fin b => decide (a ≤ b)

def abs : PF → PF
  | nan => nan
  | posInf => posInf
  | negInf => posInf
  | fin a => fin |a|

end PF

/-- Python `sum` over a list of doubles: left fold of IEEE addition
starting from 0 (NaN propagates). -/
def pySum (l : List PF) : PF := l.foldl PF.add (PF.fin 0)

/-- pandas `Series.sum()` with the default `skipna=True`: NaN entries are
dropped, then summed; an all-NaN (or empty) column sums to 0. -/
def pdSum (l : List PF) : PF := pySum (l.filter (fun x => !x.isNan))

/-- pandas `Series.mean()` with the default `skipna=True`: NaN entries are
dropped; the mean of an empty remainder is NaN. -/
def pdMean (l : List PF) : PF :=
  let v := l.filter (fun x => !x.isNan)
  if v.length = 0 then PF.nan
  else PF.div (pySum v) (PF.fin v.length)

/-!
### Decimal rendering helpers

The strategies embed numbers into their rationale strings using Python
format specifiers (`:.0f`, `:.4f`, `:.2%`, `str`).  We model fixed-point
formatting with round-half-to-even, `nan`/`inf` rendered as Python does.
-/

/-- Round a rational to the nearest integer, ties to even
(Python's float-formatting rounding mode). -/
def roundHalfEven (q : ℚ) : ℤ :=
  let f := ⌊q⌋
  let r := q - f
  if r < 1/2 then f
  else if 1/2 < r then f + 1
  else if f % 2 = 0 then f else f + 1

/-- Left-pad a numeral with zeros to the given width. -/
def padZeros (s : String) (w : ℕ) : String :=
  String.mk (List.replicate (w - s.length) '0') ++ s

/-- Python fixed-point formatting `format(q, '.<prec>f')` for a finite
value (including the `-0` sign behaviour). -/
def decFmt (q : ℚ) (prec : ℕ) : String :=
  let n := roundHalfEven (q * (10 ^ prec : ℕ))
  let negSign := n < 0 ∨ (n = 0 ∧ q < 0)
  let a := n.natAbs
  let ip := a / 10 ^ prec
  let fp := a % 10 ^ prec
  (if negSign then "-" else "") ++ toString ip ++
    (if prec = 0 then "" else "." ++ padZeros (toString fp) prec)

/-- Python `f"{x:.<prec>f}"` on a double. -/
def pfFmt (x : PF) (prec : ℕ) : String :=
  match x with
  | PF.nan => "nan"
  | PF.posInf => "inf"
  | PF.negInf => "-inf"
  | PF.fin q => decFmt q prec

/-- Python `f"{x:.2%}"` on a double. -/
def pfFmtPct2 (x : PF) : String :=
  match x with
  | PF.nan => "nan%"
  | PF.posInf => "inf%"
  | PF.negInf => "-inf%"
  | PF.fin q => decFmt (q * 100) 2 ++ "%"

/-- Smallest number of decimal digits needed to write `q` exactly, capped
at `fuel`. -/
def decDigitsAux (q : ℚ) : ℕ → ℕ
  | 0 => 0
  | fuel + 1 => if q.den = 1 then 0 else 1 + decDigitsAux (q * 10) fuel

/-- Model of Python `str` on a double: integral values print with a
trailing `.0`; other decimally-representable values print their exact
expansion (the shortest round-tripping form for such values); anything
else is approximated with 17 fractional digits. -/
def pyStr (x : PF) : String :=
  match x with
  | PF.nan => "nan"
  | PF.posInf => "inf"
  | PF.negInf => "-inf"
  | PF.fin q =>
      if q.den = 1 then toString q.num ++ ".0"
      else decFmt q (max 1 (decDigitsAux q 17))

/-- A strategy outcome: direction label, human-readable rationale,
strength.  (The Python strategies return this as a tuple.) -/
structure Signal where
  direction : String
  rationale : String
  strength : PF
deriving DecidableEq, Repr

/-!
### PowerChangeStrategy (futures_position_analysis.py lines 17–36)
-/

/-- The aggregate statistics record handed to the strategies
(the dict built by `process_position_data`, minus the raw table). -/
structure AggregateStats where
  total_long : PF
  total_short : PF
  total_long_chg : PF
  total_short_chg : PF
deriving DecidableEq, Repr

namespace PowerChangeStrategy

/-- `PowerChangeStrategy.analyze`: sign pattern of the aggregate long/short
changes decides the signal. -/
def analyze (s : AggregateStats) : Signal :=
  let long_chg := s.total_long_chg
  let short_chg := s.total_short_chg
  if PF.lt (PF.fin 0) long_chg && PF.lt short_chg (PF.fin 0) then
    { direction := "看多"
      rationale := "多单增加" ++ pfFmt long_chg 0 ++ "手，空单减少" ++
        pfFmt (PF.abs short_chg) 0 ++ "手"
      strength := PF.abs long_chg }
  else if PF.lt long_chg (PF.fin 0) && PF.lt (PF.fin 0) short_chg then
    { direction := "看空"
      rationale := "多单减少" ++ pfFmt (PF.abs long_chg) 0 ++ "手，空单增加" ++
        pfFmt short_chg 0 ++ "手"
      strength := PF.abs short_chg }
  else
    { direction := "中性"
      rationale := "多单变化" ++ pfFmt long_chg 0 ++ "手，空单变化" ++
        pfFmt short_chg 0 ++ "手"
      strength := PF.fin 0 }

end PowerChangeStrategy

/-- C1: for every aggregate-stats input with finite total long change `L`
and total short change `S`, `PowerChangeStrategy.analyze` returns 看多
(Bullish) with strength `|L|` exactly when `L > 0 ∧ S < 0`, 看空 (Bearish)
with strength `|S|` exactly when `L < 0 ∧ S > 0`, and 中性 (Neutral) with
strength 0 in every other sign combination. -/
theorem powerChange_sign_cases (L S : ℚ) (s : AggregateStats)
    (hL : s.total_long_chg = PF.fin L) (hS : s.total_short_chg = PF.fin S) :
    ((PowerChangeStrategy.analyze s).direction = "看多" ↔ L > 0 ∧ S < 0) ∧
    (L > 0 ∧ S < 0 → (PowerChangeStrategy.analyze s).strength = PF.fin |L|) ∧
    ((PowerChangeStrategy.analyze s).direction = "看空" ↔ L < 0 ∧ S > 0) ∧
    (L < 0 ∧ S > 0 → (PowerChangeStrategy.analyze s).strength = PF.fin |S|) ∧
    (¬(L > 0 ∧ S < 0) → ¬(L < 0 ∧ S > 0) →
      (PowerChangeStrategy.analyze s).direction = "中性" ∧
      (PowerChangeStrategy.analyze s).strength = PF.fin 0) := by
  simp only [PowerChangeStrategy.analyze, hL, hS, PF.lt, PF.abs]
  by_cases h1 : (0:ℚ) < L <;> by_cases h2 : S < 0 <;>
    by_cases h3 : L < 0 <;> by_cases h4 : (0:ℚ) < S <;>
    simp [h1, h2, h3, h4] <;> intros <;> first
      | rfl
      | linarith
      | simp_all

/-- Witness for C1 at the spec's example: `L = 100`, `S = -50` yields
看多 with strength 100. -/
theorem powerChange_sign_cases_witness :
    (PowerChangeStrategy.analyze
      ⟨PF.fin 0, PF.fin 0, PF.fin 100, PF.fin (-50)⟩).direction = "看多" ∧
    (PowerChangeStrategy.analyze
      ⟨PF.fin 0, PF.fin 0, PF.fin 100, PF.fin (-50)⟩).strength = PF.fin 100 :=
  ⟨((powerChange_sign_cases 100 (-50) _ rfl rfl).1).mpr (by norm_num),
   by
    have h := (powerChange_sign_cases 100 (-50)
      ⟨PF.fin 0, PF.fin 0, PF.fin 100, PF.fin (-50)⟩ rfl rfl).2.1 (by norm_num)
    simpa using h⟩

/-!
### PositionTable normalizer (`process_position_data`,
futures_position_analysis.py lines 216–292)

A raw table cell is a string, a number, or missing (NaN/None); party-name
columns always read back as strings.  A raw table also carries its column
labels, since the source renames exchange-specific labels and rejects
tables that structurally lack a required column.
-/

/-- One raw table cell. -/
inductive Cell where
  | str : String → Cell
  | num : ℚ → Cell
  | null : Cell
deriving DecidableEq, Repr

/-- Numeric value of a digit string. -/
def digitsVal (cs : List Char) : ℕ :=
  cs.foldl (fun a c => 10 * a + (c.toNat - '0'.toNat)) 0

/-- Parse an unsigned fixed-point decimal (`"12"`, `"12."`, `".5"`,
`"1.5"`); no sign, no exponent. -/
def parseFixed (cs : List Char) : Option ℚ :=
  let ip := cs.takeWhile Char.isDigit
  let rest := cs.dropWhile Char.isDigit
  match rest with
  | [] => if ip.isEmpty then none else some (digitsVal ip)
  | '.' :: fr =>
      if fr.all Char.isDigit && !(ip.isEmpty && fr.isEmpty) then
        some ((digitsVal ip : ℚ) + (digitsVal fr : ℚ) / ((10 : ℚ) ^ fr.length))
      else none
  | _ => none

/-- Split a character list at the first exponent marker `e`/`E`. -/
def splitOnExp : List Char → List Char × Option (List Char)
  | [] => ([], none)
  | c :: cs =>
      if c = 'e' || c = 'E' then ([], some cs)
      else
        let p := splitOnExp cs
        (c :: p.1, p.2)

/-- Parse an exponent part: optional sign then a nonempty digit string. -/
def parseExp (cs : List Char) : Option ℤ :=
  let p : ℤ × List Char :=
    match cs with
    | '+' :: t => (1, t)
    | '-' :: t => (-1, t)
    | t => (1, t)
  if p.2.isEmpty || !p.2.all Char.isDigit then none
  else some (p.1 * digitsVal p.2)

/-- Model of the numeric parser behind `pd.to_numeric` / Python `float()`
(applied after comma/space removal): optional sign, then `inf`, `infinity`
or `nan` (case-insensitive), or decimal notation with optional exponent. -/
def pyFloat (s : String) : Option PF :=
  let cs := s.toList
  let p : ℚ × List Char :=
    match cs with
    | '+' :: t => (1, t)
    | '-' :: t => (-1, t)
    | t => (1, t)
  let low := String.mk (p.2.map Char.toLower)
  if low = "inf" || low = "infinity" then
    some (if p.1 = 1 then PF.posInf else PF.negInf)
  else if low = "nan" then some PF.nan
  else
    let me := splitOnExp p.2
    match parseFixed me.1, me.2 with
    | some v, none => some (PF.fin (p.1 * v))
    | some v, some ecs =>
        match parseExp ecs with
        | some k => some (PF.fin (p.1 * v * (10 : ℚ) ^ k))
        | none => none
    | none, _ => none

/-- `.str.replace(',', '').str.replace(' ', '')`: delete every comma and
space character. -/
def stripCommaSpace (s : String) : String :=
  String.mk (s.toList.filter (fun c => c ≠ ',' && c ≠ ' '))

/-- The per-cell numeric coercion of `process_position_data` (lines
260–262): render to string, strip commas/spaces, map the literal `'nan'`
to missing, then `pd.to_numeric(errors='coerce')`. -/
def cleanNumericCell : Cell → PF
  | Cell.null => PF.nan
  | Cell.num q => PF.fin q
  | Cell.str s =>
      let t := stripCommaSpace s
      if t = "nan" then PF.nan
      else
        match pyFloat t with
        | some v => v
        | none => PF.nan

/-- One raw per-seat row (canonical field slots; the table's column
labels are carried separately). -/
structure RawRow where
  long_party_name : String
  long_open_interest : Cell
  long_open_interest_chg : Cell
  short_party_name : String
  short_open_interest : Cell
  short_open_interest_chg : Cell
  vol : Cell
deriving DecidableEq, Repr

/-- A raw exchange table: its column labels plus its rows. -/
structure RawTable where
  cols : List String
  rows : List RawRow
deriving DecidableEq, Repr

/-- One normalized row: numeric fields coerced to doubles. -/
structure ProcRow where
  long_party_name : String
  long_open_interest : PF
  long_open_interest_chg : PF
  short_party_name : String
  short_open_interest : PF
  short_open_interest_chg : PF
  vol : PF
deriving DecidableEq, Repr

/-- Numeric coercion of one row. -/
def cleanRow (r : RawRow) : ProcRow :=
  { long_party_name := r.long_party_name
    long_open_interest := cleanNumericCell r.long_open_interest
    long_open_interest_chg := cleanNumericCell r.long_open_interest_chg
    short_party_name := r.short_party_name
    short_open_interest := cleanNumericCell r.short_open_interest
    short_open_interest_chg := cleanNumericCell r.short_open_interest_chg
    vol := cleanNumericCell r.vol }

/-- The CZCE alias map applied when `g_party_n`/`t_party_n` are present
(lines 234–243). -/
def renameColumn (c : String) : String :=
  if c = "g_party_n" then "long_party_name"
  else if c = "open_inten" then "long_open_interest"
  else if c = "inten_intert" then "long_open_interest_chg"
  else if c = "t_party_n" then "short_party_name"
  else if c = "open_inten.1" then "short_open_interest"
  else if c = "inten_intert.1" then "short_open_interest_chg"
  else c

/-- The required canonical columns (lines 245–247). -/
def required_columns : List String :=
  ["long_party_name", "long_open_interest", "long_open_interest_chg",
   "short_party_name", "short_open_interest", "short_open_interest_chg",
   "vol"]

/-- Column labels after the conditional alias resolution. -/
def resolvedCols (t : RawTable) : List String :=
  if t.cols.contains "g_party_n" && t.cols.contains "t_party_n" then
    t.cols.map renameColumn
  else t.cols

/-- The structural schema check (line 250). -/
def requiredColumnsPresent (t : RawTable) : Bool :=
  required_columns.all (fun c => (resolvedCols t).contains c)

/-- Output of `process_position_data`: the four aggregate totals plus the
normalized table. -/
structure ProcessedData where
  total_long : PF
  total_short : PF
  total_long_chg : PF
  total_short_chg : PF
  raw_data : List ProcRow
deriving DecidableEq, Repr

/-- `FuturesPositionAnalyzer.process_position_data`: alias resolution,
schema check (`None` on failure), truncation to the first 20 rows,
numeric coercion, and skipna column sums. -/
def process_position_data (t : RawTable) : Option ProcessedData :=
  if requiredColumnsPresent t then
    let df := (t.rows.take 20).map cleanRow
    some
      { total_long := pdSum (df.map (·.long_open_interest))
        total_short := pdSum (df.map (·.short_open_interest))
        total_long_chg := pdSum (df.map (·.long_open_interest_chg))
        total_short_chg := pdSum (df.map (·.short_open_interest_chg))
        raw_data := df }
  else none

/-- The finite value held by a double, when there is one. -/
def finitePart : PF → Option ℚ
  | PF.fin q => some q
  | _ => none

lemma pySum_map_fin (a : ℚ) (qs : List ℚ) :
    (qs.map PF.fin).foldl PF.add (PF.fin a) = PF.fin (a + qs.sum) := by
  induction qs generalizing a with
  | nil => simp
  | cons q qs ih =>
      simp only [List.map_cons, List.foldl_cons, PF.add, List.sum_cons]
      rw [ih]
      ring_nf

lemma filter_notNan_of_nanOrFin (l : List PF)
    (h : ∀ x ∈ l, x.isNan = true ∨ x.isFinite = true) :
    l.filter (fun x => !x.isNan) = (l.filterMap finitePart).map PF.fin := by
  induction l with
  | nil => simp
  | cons x xs ih =>
      have hx := h x (by simp)
      have hxs : ∀ y ∈ xs, y.isNan = true ∨ y.isFinite = true :=
        fun y hy => h y (by simp [hy])
      cases x with
      | nan => simpa [finitePart] using ih hxs
      | posInf => simp [PF.isNan, PF.isFinite] at hx
      | negInf => simp [PF.isNan, PF.isFinite] at hx
      | fin q => simpa [finitePart, PF.isNan] using ih hxs

/-- A skipna column sum over NaN-or-finite entries is the plain sum of the
present (finite) values; missing entries are skipped, not zeroed. -/
lemma pdSum_eq_fin_sum (l : List PF)
    (h : ∀ x ∈ l, x.isNan = true ∨ x.isFinite = true) :
    pdSum l = PF.fin ((l.filterMap finitePart).sum) := by
  unfold pdSum pySum
  rw [filter_notNan_of_nanOrFin l h, pySum_map_fin]
  ring_nf

/-- C3: when the schema check passes, `process_position_data` keeps
exactly the first 20 rows in input order and coerces them cell-wise; each
aggregate total is the sum of the present (finite) values of its column,
with missing values skipped; string cells are cleaned of commas and spaces
before parsing (cleaning is invariant under pre-stripping); and an
unparseable or empty string yields the missing value NaN — never any
finite number (in particular never zero) and never a failure. -/
theorem process_position_data_normalizes (t : RawTable)
    (hcols : requiredColumnsPresent t = true)
    (hfin : ∀ r ∈ (t.rows.take 20).map cleanRow,
      (r.long_open_interest.isNan = true ∨ r.long_open_interest.isFinite = true) ∧
      (r.short_open_interest.isNan = true ∨ r.short_open_interest.isFinite = true) ∧
      (r.long_open_interest_chg.isNan = true ∨ r.long_open_interest_chg.isFinite = true) ∧
      (r.short_open_interest_chg.isNan = true ∨ r.short_open_interest_chg.isFinite = true)) :
    process_position_data t =
      some
        { total_long := PF.fin
            (((((t.rows.take 20).map cleanRow).map (·.long_open_interest)).filterMap finitePart).sum)
          total_short := PF.fin
            (((((t.rows.take 20).map cleanRow).map (·.short_open_interest)).filterMap finitePart).sum)
          total_long_chg := PF.fin
            (((((t.rows.take 20).map cleanRow).map (·.long_open_interest_chg)).filterMap finitePart).sum)
          total_short_chg := PF.fin
            (((((t.rows.take 20).map cleanRow).map (·.short_open_interest_chg)).filterMap finitePart).sum)
          raw_data := (t.rows.take 20).map cleanRow } ∧
    (∀ s, cleanNumericCell (Cell.str s) =
      cleanNumericCell (Cell.str (stripCommaSpace s))) ∧
    (∀ s, stripCommaSpace s = "nan" ∨ pyFloat (stripCommaSpace s) = none →
      cleanNumericCell (Cell.str s) = PF.nan ∧
      ∀ q : ℚ, cleanNumericCell (Cell.str s) ≠ PF.fin q) := by
  refine ⟨?_, ?_, ?_⟩
  · have h1 := pdSum_eq_fin_sum
      (((t.rows.take 20).map cleanRow).map (·.long_open_interest))
      (by intro x hx
          obtain ⟨r, hr, rfl⟩ := List.mem_map.1 hx
          exact (hfin r hr).1)
    have h2 := pdSum_eq_fin_sum
      (((t.rows.take 20).map cleanRow).map (·.short_open_interest))
      (by intro x hx
          obtain ⟨r, hr, rfl⟩ := List.mem_map.1 hx
          exact (hfin r hr).2.1)
    have h3 := pdSum_eq_fin_sum
      (((t.rows.take 20).map cleanRow).map (·.long_open_interest_chg))
      (by intro x hx
          obtain ⟨r, hr, rfl⟩ := List.mem_map.1 hx
          exact (hfin r hr).2.2.1)
    have h4 := pdSum_eq_fin_sum
      (((t.rows.take 20).map cleanRow).map (·.short_open_interest_chg))
      (by intro x hx
          obtain ⟨r, hr, rfl⟩ := List.mem_map.1 hx
          exact (hfin r hr).2.2.2)
    simp only [process_position_data, hcols, if_true, h1, h2, h3, h4]
  · intro s
    have hidem : stripCommaSpace (stripCommaSpace s) = stripCommaSpace s := by
      simp [stripCommaSpace, List.filter_filter]
    simp only [cleanNumericCell, hidem]
  · intro s hs
    rcases hs with hnan | hfail
    · constructor
      · simp [cleanNumericCell, hnan]
      · intro q
        simp [cleanNumericCell, hnan]
    · by_cases hnan : stripCommaSpace s = "nan"
      · exact ⟨by simp [cleanNumericCell, hnan], fun q => by simp [cleanNumericCell, hnan]⟩
      · exact ⟨by simp [cleanNumericCell, hnan, hfail],
          fun q => by simp [cleanNumericCell, hnan, hfail]⟩

/-- Concrete messy table for the C3 witness: thousands separators, an
empty string, an unparseable string, missing cells, and a plain number. -/
def w3Tbl : RawTable :=
  { cols := required_columns
    rows :=
      [ ⟨"席位A", Cell.str "1,000", Cell.str "1,234", "席位B", Cell.num 500,
          Cell.str "-10", Cell.num 300⟩,
        ⟨"席位C", Cell.null, Cell.str "", "席位D", Cell.str "abc", Cell.num 5,
          Cell.str "2,000"⟩,
        ⟨"席位E", Cell.num 40, Cell.str "10", "席位F", Cell.num 60, Cell.null,
          Cell.num 0⟩ ] }

/-- Witness for C3: on `w3Tbl`, normalization succeeds and the aggregate
long-change total sums only the present values 1234 and 10 (the empty
string is skipped, not zeroed). -/
theorem process_position_data_normalizes_witness :
    ∃ d, process_position_data w3Tbl = some d ∧
      d.total_long_chg = PF.fin 1244 ∧ d.raw_data.length = 3 := by
  have h := process_position_data_normalizes w3Tbl (by decide) (by decide)
  refine ⟨_, h.1, ?_, by decide⟩
  simp [w3Tbl, cleanRow, cleanNumericCell, stripCommaSpace, List.filter_cons,
    pyFloat, splitOnExp, parseFixed, digitsVal, finitePart]
  norm_num

/-!
### SpiderWebStrategy (futures_position_analysis.py lines 38–84)
-/

namespace SpiderWebStrategy

/-- Step 1 (lines 49–53): seats whose volume and both open-interest
fields are present (`notna`). -/
def valid_seats (df : List ProcRow) : List ProcRow :=
  df.filter (fun r =>
    !r.vol.isNan && !r.long_open_interest.isNan && !r.short_open_interest.isNan)

/-- Step 2 (line 59): the informedness statistic
`(long + short open interest) / volume`. -/
def stat (r : ProcRow) : PF :=
  PF.div (PF.add r.long_open_interest r.short_open_interest) r.vol

/-- Stable insertion step for the descending sort on `stat`. -/
def insDesc (x : ProcRow) : List ProcRow → List ProcRow
  | [] => [x]
  | y :: ys => if PF.lt (stat x) (stat y) then y :: insDesc x ys else x :: y :: ys

/-- `sort_values('stat', ascending=False)` (line 62): comparable keys in
descending order, NaN keys placed last; modelled with a stable sort (the
source's quicksort fixes no particular order among equal keys, and no
analysed property depends on one). -/
def sorted_seats (df : List ProcRow) : List ProcRow :=
  ((valid_seats df).filter (fun r => !(stat r).isNan)).foldr insDesc []
    ++ (valid_seats df).filter (fun r => (stat r).isNan)

/-- `int(len(sorted_seats) * 0.4)` (line 63).  For the at-most-20-row
tables the normalizer produces, the double product `n * 0.4` truncates to
exactly `⌊2n/5⌋`. -/
def cutoff_index (df : List ProcRow) : ℕ :=
  2 * (valid_seats df).length / 5

/-- The informed group (line 64). -/
def its (df : List ProcRow) : List ProcRow :=
  (sorted_seats df).take (cutoff_index df)

/-- The uninformed group (line 65). -/
def uts (df : List ProcRow) : List ProcRow :=
  (sorted_seats df).drop (cutoff_index df)

/-- Step 4 (lines 68–69): the directional skew
`(long − short) / (long + short)`. -/
def skew (r : ProcRow) : PF :=
  PF.div (PF.sub r.long_open_interest r.short_open_interest)
    (PF.add r.long_open_interest r.short_open_interest)

/-- Step 5 (line 72): `MSD = mean(informed skew) − mean(uninformed skew)`
with pandas skipna means. -/
def msd (df : List ProcRow) : PF :=
  PF.sub (pdMean ((its df).map skew)) (pdMean ((uts df).map skew))

/-- `SpiderWebStrategy.analyze` (lines 43–84). -/
def analyze (d : ProcessedData) : Signal :=
  let df := d.raw_data
  if (valid_seats df).length = 0 then
    { direction := "中性", rationale := "无有效席位数据", strength := PF.fin 0 }
  else
    let m := msd df
    if PF.lt (PF.fin 0) m then
      { direction := "看多", rationale := "MSD=" ++ pfFmt m 4 ++ "，知情者看多"
        strength := PF.abs m }
    else if PF.lt m (PF.fin 0) then
      { direction := "看空", rationale := "MSD=" ++ pfFmt m 4 ++ "，知情者看空"
        strength := PF.abs m }
    else
      { direction := "中性", rationale := "MSD=" ++ pfFmt m 4 ++ "，无明显信号"
        strength := PF.fin 0 }

end SpiderWebStrategy

/-- Neither `0 < m` nor `m < 0` holds (IEEE) exactly when `m` is zero or
NaN. -/
lemma pf_not_lt_zero_iff (m : PF) :
    PF.lt (PF.fin 0) m = false ∧ PF.lt m (PF.fin 0) = false ↔
      m = PF.fin 0 ∨ m = PF.nan := by
  cases m with
  | nan => simp [PF.lt]
  | posInf => simp [PF.lt]
  | negInf => simp [PF.lt]
  | fin q =>
      simp only [PF.lt, decide_eq_false_iff_not, not_lt, PF.fin.injEq]
      constructor
      · rintro ⟨h1, h2⟩
        left
        exact le_antisymm h1 h2
      · rintro (h | h)
        · simp [h]
        · cases h

lemma pf_lt_zero_false_of_gt {m : PF} (h : PF.lt (PF.fin 0) m = true) :
    PF.lt m (PF.fin 0) = false := by
  cases m <;> simp_all [PF.lt] <;> linarith

lemma pf_gt_zero_false_of_lt {m : PF} (h : PF.lt m (PF.fin 0) = true) :
    PF.lt (PF.fin 0) m = false := by
  cases m <;> simp_all [PF.lt] <;> linarith

lemma pf_ne_zero_nan_of_gt {m : PF} (h : PF.lt (PF.fin 0) m = true) :
    ¬m = PF.fin 0 ∧ ¬m = PF.nan := by
  cases m <;> simp_all [PF.lt]
  linarith

lemma pf_ne_zero_nan_of_lt {m : PF} (h : PF.lt m (PF.fin 0) = true) :
    ¬m = PF.fin 0 ∧ ¬m = PF.nan := by
  cases m <;> simp_all [PF.lt]
  linarith

/-- C2 (amended): on a table with no valid seats the SpiderWeb strategy
returns 中性 with the no-valid-seats rationale; otherwise the signal is
看多 iff `0 < MSD`, 看空 iff `MSD < 0` (IEEE comparisons), with strength
`|MSD|` in both directional cases, and 中性 with strength 0 iff MSD is
exactly zero or NaN (the undefined-mean case); the rationale embeds the
computed MSD value. -/
theorem spiderWeb_msd_signal (d : ProcessedData) :
    (SpiderWebStrategy.valid_seats d.raw_data = [] →
      SpiderWebStrategy.analyze d =
        { direction := "中性", rationale := "无有效席位数据",
          strength := PF.fin 0 }) ∧
    (SpiderWebStrategy.valid_seats d.raw_data ≠ [] →
      ((SpiderWebStrategy.analyze d).direction = "看多" ↔
        PF.lt (PF.fin 0) (SpiderWebStrategy.msd d.raw_data) = true) ∧
      ((SpiderWebStrategy.analyze d).direction = "看空" ↔
        PF.lt (SpiderWebStrategy.msd d.raw_data) (PF.fin 0) = true) ∧
      ((SpiderWebStrategy.analyze d).direction = "中性" ↔
        (SpiderWebStrategy.msd d.raw_data = PF.fin 0 ∨
          SpiderWebStrategy.msd d.raw_data = PF.nan)) ∧
      ((SpiderWebStrategy.analyze d).direction ≠ "中性" →
        (SpiderWebStrategy.analyze d).strength =
          PF.abs (SpiderWebStrategy.msd d.raw_data)) ∧
      ((SpiderWebStrategy.analyze d).direction = "中性" →
        (SpiderWebStrategy.analyze d).strength = PF.fin 0) ∧
      ∃ rest, (SpiderWebStrategy.analyze d).rationale =
        "MSD=" ++ pfFmt (SpiderWebStrategy.msd d.raw_data) 4 ++ rest) := by
  constructor
  · intro h
    simp [SpiderWebStrategy.analyze, h]
  · intro h
    have hlen : ¬(SpiderWebStrategy.valid_seats d.raw_data).length = 0 := by
      simpa [List.length_eq_zero] using h
    by_cases hb1 : PF.lt (PF.fin 0) (SpiderWebStrategy.msd d.raw_data) = true
    · refine ⟨by simp [SpiderWebStrategy.analyze, hlen, hb1], ?_, ?_, ?_, ?_, ?_⟩
      · simp only [SpiderWebStrategy.analyze, hlen, hb1]
        simp
        exact pf_lt_zero_false_of_gt hb1
      · simp only [SpiderWebStrategy.analyze, hlen, hb1]
        simp
        exact pf_ne_zero_nan_of_gt hb1
      · intro _
        simp [SpiderWebStrategy.analyze, hlen, hb1]
      · simp [SpiderWebStrategy.analyze, hlen, hb1]
      · exact ⟨"，知情者看多", by simp [SpiderWebStrategy.analyze, hlen, hb1]⟩
    · by_cases hb2 : PF.lt (SpiderWebStrategy.msd d.raw_data) (PF.fin 0) = true
      · refine ⟨?_, by simp [SpiderWebStrategy.analyze, hlen, hb1, hb2], ?_, ?_, ?_, ?_⟩
        · simp [SpiderWebStrategy.analyze, hlen, hb1, hb2]
        · simp only [SpiderWebStrategy.analyze, hlen, hb1, hb2]
          simp
          exact pf_ne_zero_nan_of_lt hb2
        · intro _
          simp [SpiderWebStrategy.analyze, hlen, hb1, hb2]
        · simp [SpiderWebStrategy.analyze, hlen, hb1, hb2]
        · exact ⟨"，知情者看空", by simp [SpiderWebStrategy.analyze, hlen, hb1, hb2]⟩
      · have hf1 : PF.lt (PF.fin 0) (SpiderWebStrategy.msd d.raw_data) = false :=
          Bool.of_not_eq_true hb1
        have hf2 : PF.lt (SpiderWebStrategy.msd d.raw_data) (PF.fin 0) = false :=
          Bool.of_not_eq_true hb2
        have hzero := (pf_not_lt_zero_iff _).1 ⟨hf1, hf2⟩
        refine ⟨?_, ?_, ?_, ?_, ?_, ?_⟩
        · simp [SpiderWebStrategy.analyze, hlen, hb1, hb2, hf1]
        · simp [SpiderWebStrategy.analyze, hlen, hb1, hb2, hf2]
        · simp [SpiderWebStrategy.analyze, hlen, hb1, hb2, hzero]
        · intro hne
          exact absurd (by simp [SpiderWebStrategy.analyze, hlen, hb1, hb2]) hne
        · intro _
          simp [SpiderWebStrategy.analyze, hlen, hb1, hb2]
        · exact ⟨"，无明显信号", by simp [SpiderWebStrategy.analyze, hlen, hb1, hb2]⟩

/-- One-valid-seat table exercising the empty-informed-group edge of the
SpiderWeb strategy. -/
def c2Tbl : ProcessedData :=
  { total_long := PF.fin 90, total_short := PF.fin 60
    total_long_chg := PF.fin 3, total_short_chg := PF.fin 2
    raw_data :=
      [ ⟨"席位丙", PF.fin 90, PF.fin 3, "席位丁", PF.fin 60, PF.fin 2,
          PF.fin 50⟩ ] }

/-- Counterexample to C2 as stated: on a table with one valid seat the
informed group is empty, MSD is NaN (in particular not zero), yet the
strategy returns 中性 — so "Neutral iff MSD == 0" fails. -/
theorem spiderWeb_neutral_nan_msd_counterexample :
    SpiderWebStrategy.valid_seats c2Tbl.raw_data ≠ [] ∧
    (SpiderWebStrategy.analyze c2Tbl).direction = "中性" ∧
    SpiderWebStrategy.msd c2Tbl.raw_data ≠ PF.fin 0 ∧
    SpiderWebStrategy.msd c2Tbl.raw_data = PF.nan := by
  refine ⟨by decide, by decide, by decide, by decide⟩

/-- C9: whenever the 0.4 split index of a table is 0 the informed group is
empty, its mean is NaN, and `SpiderWebStrategy.analyze` returns a 中性
signal with strength 0 — no crash and no NaN in the strength. -/
theorem spiderWeb_empty_informed_neutral (d : ProcessedData)
    (h : SpiderWebStrategy.cutoff_index d.raw_data = 0) :
    (SpiderWebStrategy.analyze d).direction = "中性" ∧
    (SpiderWebStrategy.analyze d).strength = PF.fin 0 := by
  by_cases hv : (SpiderWebStrategy.valid_seats d.raw_data).length = 0
  · simp [SpiderWebStrategy.analyze, hv]
  · have hmsd : SpiderWebStrategy.msd d.raw_data = PF.nan := by
      unfold SpiderWebStrategy.msd SpiderWebStrategy.its
      rw [h]
      simp [pdMean, PF.sub, PF.add]
    simp [SpiderWebStrategy.analyze, hv, hmsd, PF.lt]

/-- One-valid-seat table for the C9 witness. -/
def c9Tbl : ProcessedData :=
  { total_long := PF.fin 80, total_short := PF.fin 30
    total_long_chg := PF.fin 4, total_short_chg := PF.fin (-1)
    raw_data :=
      [ ⟨"席位甲", PF.fin 80, PF.fin 4, "席位乙", PF.fin 30, PF.fin (-1),
          PF.fin 200⟩ ] }

/-- Witness for C9: a table with exactly one valid seat has split index 0
and yields 中性 with strength 0. -/
theorem spiderWeb_empty_informed_neutral_witness :
    SpiderWebStrategy.cutoff_index c9Tbl.raw_data = 0 ∧
    (SpiderWebStrategy.analyze c9Tbl).direction = "中性" ∧
    (SpiderWebStrategy.analyze c9Tbl).strength = PF.fin 0 :=
  ⟨by decide, spiderWeb_empty_informed_neutral c9Tbl (by decide)⟩

/-- Zero-volume seat row for the C8 counterexample. -/
def c8Tbl : ProcessedData :=
  { total_long := PF.fin 10, total_short := PF.fin 5
    total_long_chg := PF.fin 1, total_short_chg := PF.fin (-1)
    raw_data :=
      [ ⟨"席位戊", PF.fin 10, PF.fin 1, "席位己", PF.fin 5, PF.fin (-1),
          PF.fin 0⟩ ] }

/-- Counterexample to C8 as stated: a row whose traded volume is exactly 0
(but present) passes the `notna` filter, so it is *not* excluded from the
informedness computation, and its stat value is +∞. -/
theorem spiderWeb_zero_volume_counterexample :
    (⟨"席位戊", PF.fin 10, PF.fin 1, "席位己", PF.fin 5, PF.fin (-1),
        PF.fin 0⟩ : ProcRow) ∈ SpiderWebStrategy.valid_seats c8Tbl.raw_data ∧
    SpiderWebStrategy.stat
      ⟨"席位戊", PF.fin 10, PF.fin 1, "席位己", PF.fin 5, PF.fin (-1),
        PF.fin 0⟩ = PF.posInf := by
  constructor
  · decide
  · show PF.div (PF.add (PF.fin 10) (PF.fin 5)) (PF.fin 0) = PF.posInf
    norm_num [PF.add, PF.div]

/-- C8 (amended): a seat row whose volume is present and exactly 0 is
retained by the valid-seat filter whenever its open-interest fields are
present, and when its open-interest sum is positive its informedness stat
is the infinite value +∞ (the filter removes only missing fields). -/
theorem spiderWeb_zero_volume_retained (df : List ProcRow) (r : ProcRow)
    (a b : ℚ) (hr : r ∈ df) (hvol : r.vol = PF.fin 0)
    (hl : r.long_open_interest = PF.fin a)
    (hs : r.short_open_interest = PF.fin b) (hab : 0 < a + b) :
    r ∈ SpiderWebStrategy.valid_seats df ∧
    SpiderWebStrategy.stat r = PF.posInf := by
  constructor
  · exact List.mem_filter.2 ⟨hr, by simp [hvol, hl, hs, PF.isNan]⟩
  · unfold SpiderWebStrategy.stat
    rw [hvol, hl, hs]
    have h0 : ¬(a + b = 0) := by linarith
    simp [PF.add, PF.div, h0, hab]

/-- Witness for the amended C8 at a concrete zero-volume row. -/
theorem spiderWeb_zero_volume_retained_witness :
    (⟨"席位庚", PF.fin 20, PF.fin 2, "席位辛", PF.fin 40, PF.fin (-2),
        PF.fin 0⟩ : ProcRow) ∈
      SpiderWebStrategy.valid_seats
        [⟨"席位庚", PF.fin 20, PF.fin 2, "席位辛", PF.fin 40, PF.fin (-2),
            PF.fin 0⟩] ∧
    SpiderWebStrategy.stat
      ⟨"席位庚", PF.fin 20, PF.fin 2, "席位辛", PF.fin 40, PF.fin (-2),
        PF.fin 0⟩ = PF.posInf :=
  spiderWeb_zero_volume_retained _ _ 20 40 (by decide) rfl rfl rfl (by norm_num)

/-- Witness for C2 at a concrete table: with no rows there are no valid
seats and the strategy returns the no-valid-seats 中性 signal. -/
theorem spiderWeb_msd_signal_witness :
    SpiderWebStrategy.analyze ⟨PF.fin 0, PF.fin 0, PF.fin 0, PF.fin 0, []⟩ =
      { direction := "中性", rationale := "无有效席位数据",
        strength := PF.fin 0 } :=
  (spiderWeb_msd_signal ⟨PF.fin 0, PF.fin 0, PF.fin 0, PF.fin 0, []⟩).1 rfl

/-!
### Retail-reverse strategy (`analyze_retail_reverse_strategy`,
app_streamlit.py lines 306–359)
-/

/-- The configured retail-proxy seat names (line 308). -/
def retail_seats : List String := ["东方财富", "平安期货", "徽商期货"]

/-- Accumulated per-seat statistics (one entry of the `seat_stats`
dict, lines 312–320). -/
structure SeatStat where
  long_chg : PF
  short_chg : PF
  long_pos : PF
  short_pos : PF
deriving DecidableEq, Repr

/-- `row[c] if pd.notna(row[c]) else 0`. -/
def notnaOrZero (v : PF) : PF := if v.isNan then PF.fin 0 else v

/-- The statistics accumulated for one tracked seat name over the whole
table: each row adds its long-side values when the seat is the long party
and its short-side values when it is the short party. -/
def seat_stats (df : List ProcRow) (name : String) : SeatStat :=
  df.foldl
    (fun acc r =>
      let acc1 :=
        if r.long_party_name = name then
          { acc with
            long_chg := PF.add acc.long_chg (notnaOrZero r.long_open_interest_chg)
            long_pos := PF.add acc.long_pos (notnaOrZero r.long_open_interest) }
        else acc
      if r.short_party_name = name then
        { acc1 with
          short_chg := PF.add acc1.short_chg (notnaOrZero r.short_open_interest_chg)
          short_pos := PF.add acc1.short_pos (notnaOrZero r.short_open_interest) }
      else acc1)
    ⟨PF.fin 0, PF.fin 0, PF.fin 0, PF.fin 0⟩

/-- One entry of the per-seat detail list. -/
structure SeatDetail where
  seat_name : String
  long_chg : PF
  short_chg : PF
  long_pos : PF
  short_pos : PF
deriving DecidableEq, Repr

/-- Lines 322–332: keep only tracked seats with a nonzero long or short
change (Python `!=` on a double is false for NaN on neither side here
since accumulators start at 0 and add only non-missing values). -/
def seat_details (df : List ProcRow) : List SeatDetail :=
  retail_seats.filterMap (fun n =>
    let st := seat_stats df n
    if ¬st.long_chg = PF.fin 0 ∨ ¬st.short_chg = PF.fin 0 then
      some ⟨n, st.long_chg, st.short_chg, st.long_pos, st.short_pos⟩
    else none)

/-- The 4-tuple returned by `analyze_retail_reverse_strategy`. -/
structure RetailResult where
  direction : String
  rationale : String
  strength : PF
  details : List SeatDetail
deriving DecidableEq, Repr

/-- `analyze_retail_reverse_strategy` (lines 306–359). -/
def analyze_retail_reverse_strategy (df : List ProcRow) : RetailResult :=
  let dtl := seat_details df
  if dtl.isEmpty then
    { direction := "中性", rationale := "未发现家人席位持仓变化"
      strength := PF.fin 0, details := [] }
  else
    let total_long_chg := pySum (dtl.map (·.long_chg))
    let total_short_chg := pySum (dtl.map (·.short_chg))
    let total_long_pos := pySum (dtl.map (·.long_pos))
    let total_short_pos := pySum (dtl.map (·.short_pos))
    let df_total_long := pdSum (df.map (·.long_open_interest))
    let df_total_short := pdSum (df.map (·.short_open_interest))
    if PF.lt (PF.fin 0) total_long_chg && PF.le total_short_chg (PF.fin 0) then
      let retail_ratio :=
        if PF.lt (PF.fin 0) df_total_long then PF.div total_long_pos df_total_long
        else PF.fin 0
      { direction := "看空"
        rationale := "家人席位多单增加" ++ pyStr total_long_chg ++ "手，持仓占比" ++
          pfFmtPct2 retail_ratio
        strength := retail_ratio, details := dtl }
    else if PF.lt (PF.fin 0) total_short_chg && PF.le total_long_chg (PF.fin 0) then
      let retail_ratio :=
        if PF.lt (PF.fin 0) df_total_short then PF.div total_short_pos df_total_short
        else PF.fin 0
      { direction := "看多"
        rationale := "家人席位空单增加" ++ pyStr total_short_chg ++ "手，持仓占比" ++
          pfFmtPct2 retail_ratio
        strength := retail_ratio, details := dtl }
    else
      { direction := "中性", rationale := "家人席位持仓变化不符合策略要求"
        strength := PF.fin 0, details := dtl }

/-- Every entry of the detail list is a tracked seat carrying its
accumulated statistics, and has a nonzero long or short change. -/
lemma seat_details_spec (df : List ProcRow) :
    ∀ d ∈ seat_details df,
      d.seat_name ∈ retail_seats ∧
      d.long_chg = (seat_stats df d.seat_name).long_chg ∧
      d.short_chg = (seat_stats df d.seat_name).short_chg ∧
      d.long_pos = (seat_stats df d.seat_name).long_pos ∧
      d.short_pos = (seat_stats df d.seat_name).short_pos ∧
      ¬(d.long_chg = PF.fin 0 ∧ d.short_chg = PF.fin 0) := by
  intro d hd
  unfold seat_details at hd
  rw [List.mem_filterMap] at hd
  obtain ⟨n, hn, hfp⟩ := hd
  simp only at hfp
  by_cases hc : ¬(seat_stats df n).long_chg = PF.fin 0 ∨
      ¬(seat_stats df n).short_chg = PF.fin 0
  · rw [if_pos hc] at hfp
    obtain rfl := Option.some.inj hfp
    refine ⟨hn, rfl, rfl, rfl, rfl, ?_⟩
    intro hboth
    rcases hc with h | h
    · exact h hboth.1
    · exact h hboth.2
  · rw [if_neg hc] at hfp
    cases hfp

/-- A double cannot be both strictly positive and non-positive under the
IEEE comparisons. -/
lemma pf_not_pos_and_nonpos (x : PF) :
    ¬(PF.lt (PF.fin 0) x = true ∧ PF.le x (PF.fin 0) = true) := by
  cases x <;> simp [PF.lt, PF.le]

/-- C5 (amended): on a table with no active tracked seats the strategy is
中性 with strength 0; otherwise it is 看空 iff the active tracked seats'
total long change is positive and their total short change non-positive,
with strength = (active tracked long position) / (exchange-wide total
long open interest) — 0 when that denominator is not positive — and
symmetrically 看多 on the short side; every remaining combination is
中性 with strength 0.  (The position totals in the ratio range over the
seats of the detail list, i.e. tracked seats with a nonzero change.) -/
theorem retail_reverse_signal (df : List ProcRow) :
    (seat_details df = [] →
      analyze_retail_reverse_strategy df =
        { direction := "中性", rationale := "未发现家人席位持仓变化",
          strength := PF.fin 0, details := [] }) ∧
    (seat_details df ≠ [] →
      (((analyze_retail_reverse_strategy df).direction = "看空" ↔
        PF.lt (PF.fin 0) (pySum ((seat_details df).map (·.long_chg))) = true ∧
        PF.le (pySum ((seat_details df).map (·.short_chg))) (PF.fin 0) = true) ∧
       ((analyze_retail_reverse_strategy df).direction = "看空" →
        (analyze_retail_reverse_strategy df).strength =
          (if PF.lt (PF.fin 0) (pdSum (df.map (·.long_open_interest))) then
            PF.div (pySum ((seat_details df).map (·.long_pos)))
              (pdSum (df.map (·.long_open_interest)))
          else PF.fin 0))) ∧
      (((analyze_retail_reverse_strategy df).direction = "看多" ↔
        PF.lt (PF.fin 0) (pySum ((seat_details df).map (·.short_chg))) = true ∧
        PF.le (pySum ((seat_details df).map (·.long_chg))) (PF.fin 0) = true) ∧
       ((analyze_retail_reverse_strategy df).direction = "看多" →
        (analyze_retail_reverse_strategy df).strength =
          (if PF.lt (PF.fin 0) (pdSum (df.map (·.short_open_interest))) then
            PF.div (pySum ((seat_details df).map (·.short_pos)))
              (pdSum (df.map (·.short_open_interest)))
          else PF.fin 0))) ∧
      ((analyze_retail_reverse_strategy df).direction = "中性" →
        (analyze_retail_reverse_strategy df).strength = PF.fin 0)) := by
  constructor
  · intro h
    simp [analyze_retail_reverse_strategy, h]
  · intro h
    have hne : (seat_details df).isEmpty = false := by
      simpa [List.isEmpty_iff] using h
    by_cases hb : (PF.lt (PF.fin 0) (pySum ((seat_details df).map (·.long_chg))) &&
        PF.le (pySum ((seat_details df).map (·.short_chg))) (PF.fin 0)) = true
    · have hb' := hb
      rw [Bool.and_eq_true] at hb'
      refine ⟨⟨by simp [analyze_retail_reverse_strategy, hne, hb, hb'.1, hb'.2], ?_⟩,
        ⟨?_, ?_⟩, ?_⟩
      · intro _
        simp [analyze_retail_reverse_strategy, hne, hb]
      · simp only [analyze_retail_reverse_strategy, hne, hb]
        simp
        intro _
        exact Bool.eq_false_iff.mpr (fun hc => pf_not_pos_and_nonpos _ ⟨hb'.1, hc⟩)
      · intro hdir
        exfalso
        simp [analyze_retail_reverse_strategy, hne, hb] at hdir
      · intro hdir
        exfalso
        simp [analyze_retail_reverse_strategy, hne, hb] at hdir
    · by_cases hb2 : (PF.lt (PF.fin 0) (pySum ((seat_details df).map (·.short_chg))) &&
          PF.le (pySum ((seat_details df).map (·.long_chg))) (PF.fin 0)) = true
      · have hb2' := hb2
        rw [Bool.and_eq_true] at hb2'
        refine ⟨⟨?_, ?_⟩, ⟨by simp [analyze_retail_reverse_strategy, hne, hb, hb2, hb2'.1, hb2'.2], ?_⟩, ?_⟩
        · simp only [analyze_retail_reverse_strategy, hne, hb, hb2]
          simp
          intro _
          exact Bool.eq_false_iff.mpr (fun hc => pf_not_pos_and_nonpos _ ⟨hb2'.1, hc⟩)
        · intro hdir
          exfalso
          simp [analyze_retail_reverse_strategy, hne, hb, hb2] at hdir
        · intro _
          simp [analyze_retail_reverse_strategy, hne, hb, hb2]
        · intro hdir
          exfalso
          simp [analyze_retail_reverse_strategy, hne, hb, hb2] at hdir
      · have hb' : ¬(PF.lt (PF.fin 0) (pySum ((seat_details df).map (·.long_chg))) = true ∧
            PF.le (pySum ((seat_details df).map (·.short_chg))) (PF.fin 0) = true) := by
          rw [← Bool.and_eq_true]
          exact hb
        have hb2' : ¬(PF.lt (PF.fin 0) (pySum ((seat_details df).map (·.short_chg))) = true ∧
            PF.le (pySum ((seat_details df).map (·.long_chg))) (PF.fin 0) = true) := by
          rw [← Bool.and_eq_true]
          exact hb2
        refine ⟨⟨?_, ?_⟩, ⟨?_, ?_⟩, ?_⟩
        · simp only [analyze_retail_reverse_strategy, hne, hb, hb2]
          simp
          intro h1
          exact Bool.eq_false_iff.mpr (fun hc => hb' ⟨h1, hc⟩)
        · intro hdir
          exfalso
          simp [analyze_retail_reverse_strategy, hne, hb, hb2] at hdir
        · simp only [analyze_retail_reverse_strategy, hne, hb, hb2]
          simp
          intro h1
          exact Bool.eq_false_iff.mpr (fun hc => hb2' ⟨h1, hc⟩)
        · intro hdir
          exfalso
          simp [analyze_retail_reverse_strategy, hne, hb, hb2] at hdir
        · intro _
          simp [analyze_retail_reverse_strategy, hne, hb, hb2]

/-- From the spec's words (C5/C7), for comparison with the code: the
total long position of the tracked seats, summed over *every* tracked
seat with no activity restriction. -/
def specTrackedTotalLongPos (df : List ProcRow) : PF :=
  pySum (retail_seats.map (fun n => (seat_stats df n).long_pos))

/-- Table with an active tracked seat (10 long, change +10) and a
zero-change tracked seat holding 50 long contracts. -/
def c5Tbl : List ProcRow :=
  [ ⟨"东方财富", PF.fin 10, PF.fin 10, "散户甲", PF.fin 20, PF.fin 0,
      PF.fin 100⟩,
    ⟨"平安期货", PF.fin 50, PF.nan, "散户乙", PF.fin 30, PF.fin (-5),
      PF.fin 100⟩ ]

/-- Counterexample to C5 as stated: the code's Bearish strength is the
ratio over tracked seats *with nonzero change* only (10/60), not the
spec's "tracked total long position ÷ exchange-wide total long open
interest" (60/60 = 1): the zero-change tracked seat's 50 long contracts
are not counted. -/
theorem retail_ratio_counterexample :
    (analyze_retail_reverse_strategy c5Tbl).direction = "看空" ∧
    (analyze_retail_reverse_strategy c5Tbl).strength = PF.fin (1/6) ∧
    PF.div (specTrackedTotalLongPos c5Tbl)
      (pdSum (c5Tbl.map (·.long_open_interest))) = PF.fin 1 ∧
    PF.fin ((1 : ℚ)/6) ≠ PF.fin 1 := by
  refine ⟨?_, ?_, ?_, by norm_num⟩
  · norm_num +decide [analyze_retail_reverse_strategy, seat_details, seat_stats,
      retail_seats, notnaOrZero, c5Tbl, pySum, pdSum, PF.add, PF.le, PF.lt,
      PF.isNan, List.filter_cons, List.filterMap_cons]
  · norm_num +decide [analyze_retail_reverse_strategy, seat_details, seat_stats,
      retail_seats, notnaOrZero, c5Tbl, pySum, pdSum, PF.add, PF.le, PF.lt,
      PF.div, PF.isNan, List.filter_cons, List.filterMap_cons]
  · norm_num +decide [specTrackedTotalLongPos, seat_stats, retail_seats, notnaOrZero,
      c5Tbl, pySum, pdSum, PF.add, PF.div, PF.isNan, List.filter_cons]

/-- Single-row table whose long seat is a tracked seat adding long
contracts. -/
def c5wTbl : List ProcRow :=
  [ ⟨"徽商期货", PF.fin 30, PF.fin 5, "散户丙", PF.fin 40, PF.fin 0,
      PF.fin 100⟩ ]

/-- Witness for the amended C5: a tracked seat adding 5 long contracts
with no tracked short activity yields 看空. -/
theorem retail_reverse_signal_witness :
    (analyze_retail_reverse_strategy c5wTbl).direction = "看空" := by
  have h := (retail_reverse_signal c5wTbl).2
    (by norm_num +decide [seat_details, seat_stats, retail_seats, notnaOrZero,
      c5wTbl, PF.add, PF.isNan, List.filterMap_cons])
  refine h.1.1.mpr ⟨?_, ?_⟩
  · norm_num +decide [seat_details, seat_stats, retail_seats, notnaOrZero,
      c5wTbl, pySum, PF.add, PF.lt, PF.isNan, List.filterMap_cons]
  · norm_num +decide [seat_details, seat_stats, retail_seats, notnaOrZero,
      c5wTbl, pySum, PF.add, PF.le, PF.isNan, List.filterMap_cons]

/-- Table with an active tracked seat (10 long, +5) and a zero-change
tracked seat holding 90 long contracts. -/
def c7Tbl : List ProcRow :=
  [ ⟨"东方财富", PF.fin 10, PF.fin 5, "散户丙", PF.fin 7, PF.fin 0,
      PF.fin 50⟩,
    ⟨"徽商期货", PF.fin 90, PF.fin 0, "散户丁", PF.fin 8, PF.nan,
      PF.fin 60⟩ ]

/-- Counterexample to C7 as stated: the zero-change tracked seat is
omitted from the detail list (as claimed) but its 90 long contracts are
*also* missing from the aggregate used for the ratio — the strategy's
strength is 10/100, not the 100/100 the claim's accounting would give. -/
theorem retail_zero_change_counterexample :
    "徽商期货" ∉ (seat_details c7Tbl).map (·.seat_name) ∧
    (seat_stats c7Tbl "徽商期货").long_pos = PF.fin 90 ∧
    pySum ((seat_details c7Tbl).map (·.long_pos)) = PF.fin 10 ∧
    (analyze_retail_reverse_strategy c7Tbl).strength = PF.fin (1/10) ∧
    PF.div (specTrackedTotalLongPos c7Tbl)
      (pdSum (c7Tbl.map (·.long_open_interest))) = PF.fin 1 ∧
    PF.fin ((1 : ℚ)/10) ≠ PF.fin 1 := by
  refine ⟨?_, ?_, ?_, ?_, ?_, by norm_num⟩
  · norm_num +decide [seat_details, seat_stats, retail_seats, notnaOrZero,
      c7Tbl, PF.add, PF.isNan, List.filterMap_cons]
  · norm_num +decide [seat_stats, c7Tbl, notnaOrZero, PF.add, PF.isNan]
  · norm_num +decide [seat_details, seat_stats, retail_seats, notnaOrZero,
      c7Tbl, pySum, PF.add, PF.isNan, List.filterMap_cons]
  · norm_num +decide [analyze_retail_reverse_strategy, seat_details, seat_stats,
      retail_seats, notnaOrZero, c7Tbl, pySum, pdSum, PF.add, PF.le, PF.lt,
      PF.div, PF.isNan, List.filter_cons, List.filterMap_cons]
  · norm_num +decide [specTrackedTotalLongPos, seat_stats, retail_seats,
      notnaOrZero, c7Tbl, pySum, pdSum, PF.add, PF.div, PF.isNan,
      List.filter_cons]

/-- C7 (amended): a tracked seat whose accumulated long change and short
change are both zero is omitted from the per-seat detail list, and —
because the strategy's aggregate totals are summed over that detail
list — its positions are excluded from the aggregates used for the
retail ratio as well (every listed seat has a nonzero change). -/
theorem retail_zero_change_seat_excluded (df : List ProcRow) (name : String)
    (hmem : name ∈ retail_seats)
    (hlc : (seat_stats df name).long_chg = PF.fin 0)
    (hsc : (seat_stats df name).short_chg = PF.fin 0) :
    name ∉ (seat_details df).map (·.seat_name) ∧
    ∀ d ∈ seat_details df, ¬(d.long_chg = PF.fin 0 ∧ d.short_chg = PF.fin 0) := by
  constructor
  · intro hmm
    rw [List.mem_map] at hmm
    obtain ⟨d, hd, hdn⟩ := hmm
    have hs := seat_details_spec df d hd
    apply hs.2.2.2.2.2
    constructor
    · rw [hs.2.1, hdn]
      exact hlc
    · rw [hs.2.2.1, hdn]
      exact hsc
  · intro d hd
    exact (seat_details_spec df d hd).2.2.2.2.2

/-- Table in which a tracked seat appears only as a short party with a
missing change value (so both accumulated changes are zero). -/
def c7wTbl : List ProcRow :=
  [ ⟨"东方财富", PF.fin 3, PF.fin 2, "平安期货", PF.fin 6, PF.nan,
      PF.fin 10⟩ ]

/-- Witness for the amended C7 at a concrete table. -/
theorem retail_zero_change_seat_excluded_witness :
    "平安期货" ∉ (seat_details c7wTbl).map (·.seat_name) :=
  (retail_zero_change_seat_excluded c7wTbl "平安期货" (by decide)
    (by norm_num +decide [seat_stats, c7wTbl, notnaOrZero, PF.add, PF.isNan])
    (by norm_num +decide [seat_stats, c7wTbl, notnaOrZero, PF.add, PF.isNan])).1

/-!
### Term-structure analysis (`analyze_term_structure_with_prices`,
app_streamlit.py lines 256–303)

A price row always carries the `symbol`, `close`, `variety` columns in
this typed embedding (the source first checks they are structurally
present and returns `[]` otherwise).  The `close` cell is kept as a raw
`Cell`: a string-typed close makes the pandas comparison `close > 0`
raise, which the source's `except` turns into an overall `[]` result.
-/

/-- One row of the merged daily price table. -/
structure PriceRow where
  symbol : String
  close : Cell
  variety : String
deriving DecidableEq, Repr

/-- `df['variety'].unique()`: varieties in first-appearance order. -/
def uniqFirst (l : List String) : List String :=
  l.foldl (fun acc x => if x ∈ acc then acc else acc ++ [x]) []

/-- The rows of one variety, in input order. -/
def varietyRows (df : List PriceRow) (v : String) : List PriceRow :=
  df.filter (fun r => r.variety = v)

/-- Code-point lexicographic string comparison (Python `str <`, which is
also how pandas orders the `symbol` column). -/
def pyStrLtAux : List Char → List Char → Bool
  | [], [] => false
  | [], _ :: _ => true
  | _ :: _, [] => false
  | c :: cs, d :: ds => if c < d then true else if d < c then false else pyStrLtAux cs ds

/-- Python `a < b` on strings. -/
def pyStrLt (a b : String) : Bool := pyStrLtAux a.toList b.toList

/-- Stable insertion step for the ascending sort on `symbol`. -/
def insSymbolAsc (x : PriceRow) : List PriceRow → List PriceRow
  | [] => [x]
  | y :: ys => if pyStrLt y.symbol x.symbol then y :: insSymbolAsc x ys else x :: y :: ys

/-- `sort_values('symbol')`: ascending lexicographic contract-code order
(stable model; ties are same-symbol rows, which no property relies on). -/
def sortBySymbol (l : List PriceRow) : List PriceRow := l.foldr insSymbolAsc []

/-- Whether a close cell is numeric-or-missing, i.e. survives the pandas
comparison `close > 0` without a `TypeError`. -/
def closeIsNum : Cell → Bool
  | Cell.str _ => false
  | _ => true

/-- Line 273–276: the rows of a variety surviving
`(close > 0) & (close.notna())`, in contract-code order. -/
def positiveCloses (df : List PriceRow) (v : String) : List PriceRow :=
  (sortBySymbol (varietyRows df v)).filter (fun r =>
    match r.close with
    | Cell.num q => decide (q > 0)
    | _ => false)

/-- `all(closes[i] > closes[i+1] ...)`: strict adjacent decrease. -/
def strictDecB : List ℚ → Bool
  | [] => true
  | [_] => true
  | a :: b :: rest => decide (a > b) && strictDecB (b :: rest)

/-- `all(closes[i] < closes[i+1] ...)`: strict adjacent increase. -/
def strictIncB : List ℚ → Bool
  | [] => true
  | [_] => true
  | a :: b :: rest => decide (a < b) && strictIncB (b :: rest)

/-- The close prices of the surviving rows. -/
def survivingCloses (df : List PriceRow) (v : String) : List ℚ :=
  (positiveCloses df v).filterMap (fun r =>
    match r.close with
    | Cell.num q => some q
    | _ => none)

/-- One iteration of the per-variety loop: `Except.error` models the
`TypeError` a string-typed close raises inside the comparison; `ok none`
is the `continue` for fewer than 2 surviving contracts. -/
def term_structure_step (df : List PriceRow) (v : String) :
    Except Unit (Option (String × String × List String × List ℚ)) :=
  if ((sortBySymbol (varietyRows df v)).all (fun r => closeIsNum r.close)) then
    let contracts := (positiveCloses df v).map (·.symbol)
    let closes := survivingCloses df v
    if contracts.length < 2 then Except.ok none
    else
      Except.ok (some (v,
        if strictDecB closes then "back"
        else if strictIncB closes then "contango"
        else "flat", contracts, closes))
  else Except.error ()

/-- `analyze_term_structure_with_prices`: iterate varieties in
first-appearance order, collect per-variety results; a raised exception
abandons everything collected and returns `[]`. -/
def analyze_term_structure_with_prices (df : List PriceRow) :
    List (String × String × List String × List ℚ) :=
  let go := (uniqFirst (df.map (·.variety))).foldl
    (fun acc v =>
      match acc with
      | Except.error e => Except.error e
      | Except.ok results =>
          match term_structure_step df v with
          | Except.error e => Except.error e
          | Except.ok none => Except.ok results
          | Except.ok (some r) => Except.ok (results ++ [r]))
    (Except.ok ([] : List (String × String × List String × List ℚ)))
  match go with
  | Except.error _ => []
  | Except.ok results => results

lemma mem_insSymbolAsc {x y : PriceRow} {l : List PriceRow} :
    y ∈ insSymbolAsc x l ↔ y = x ∨ y ∈ l := by
  induction l with
  | nil => simp [insSymbolAsc]
  | cons z zs ih =>
      simp only [insSymbolAsc]
      split
      · rw [List.mem_cons, ih, List.mem_cons]
        try tauto
      · simp only [List.mem_cons]
        try tauto

lemma mem_sortBySymbol {y : PriceRow} {l : List PriceRow} :
    y ∈ sortBySymbol l ↔ y ∈ l := by
  induction l with
  | nil => simp [sortBySymbol]
  | cons a l ih =>
      show y ∈ insSymbolAsc a (sortBySymbol l) ↔ _
      rw [mem_insSymbolAsc, ih, List.mem_cons]

lemma mem_uniqFirst_aux (l : List String) (acc : List String) (x : String) :
    x ∈ l.foldl (fun acc y => if y ∈ acc then acc else acc ++ [y]) acc ↔
      x ∈ acc ∨ x ∈ l := by
  induction l generalizing acc with
  | nil => simp
  | cons a l ih =>
      simp only [List.foldl_cons]
      by_cases ha : a ∈ acc
      · rw [if_pos ha, ih, List.mem_cons]
        constructor
        · rintro (h | h)
          · exact Or.inl h
          · exact Or.inr (Or.inr h)
        · rintro (h | h | h)
          · exact Or.inl h
          · exact Or.inl (h ▸ ha)
          · exact Or.inr h
      · rw [if_neg ha, ih, List.mem_append, List.mem_singleton, List.mem_cons]
        tauto

lemma mem_uniqFirst (l : List String) (x : String) :
    x ∈ uniqFirst l ↔ x ∈ l := by
  unfold uniqFirst
  rw [mem_uniqFirst_aux]
  simp

lemma length_filterMap_of_isSome {α β : Type} (f : α → Option β) (l : List α)
    (h : ∀ a ∈ l, (f a).isSome = true) :
    (l.filterMap f).length = l.length := by
  induction l with
  | nil => simp
  | cons a l ih =>
      have ha := h a (by simp)
      obtain ⟨b, hb⟩ := Option.isSome_iff_exists.1 ha
      rw [List.filterMap_cons, hb]
      simp [ih (fun x hx => h x (by simp [hx]))]

lemma survivingCloses_length (df : List PriceRow) (v : String) :
    (survivingCloses df v).length = (positiveCloses df v).length := by
  unfold survivingCloses
  apply length_filterMap_of_isSome
  intro r hr
  have hp := (List.mem_filter.1 hr).2
  cases hc : r.close with
  | num q => simp [hc]
  | str s =>
      simp only [hc] at hp
      simp at hp
  | null =>
      simp only [hc] at hp
      simp at hp

lemma strict_dec_inc_exclusive (l : List ℚ) (h : 2 ≤ l.length) :
    ¬(strictDecB l = true ∧ strictIncB l = true) := by
  cases l with
  | nil => simp at h
  | cons a t =>
      cases t with
      | nil => simp at h
      | cons b r =>
          rintro ⟨hd, hi⟩
          simp [strictDecB, strictIncB] at hd hi
          linarith [hd.1, hi.1]

lemma sorted_variety_all_numeric (df : List PriceRow)
    (hall : ∀ r ∈ df, closeIsNum r.close = true) (v : String) :
    (sortBySymbol (varietyRows df v)).all (fun r => closeIsNum r.close) = true := by
  rw [List.all_eq_true]
  intro r hr
  exact hall r (List.mem_filter.1 (mem_sortBySymbol.1 hr)).1

/-- Extraction of the entry a per-variety step contributes. -/
def stepEntry (df : List PriceRow) (v : String) :
    Option (String × String × List String × List ℚ) :=
  match term_structure_step df v with
  | Except.ok o => o
  | Except.error _ => none

lemma stepEntry_some_spec (df : List PriceRow)
    (hall : ∀ r ∈ df, closeIsNum r.close = true) (v : String)
    (e : String × String × List String × List ℚ)
    (h : stepEntry df v = some e) :
    e.1 = v ∧ 2 ≤ (positiveCloses df v).length ∧
    e.2.2.1 = (positiveCloses df v).map (·.symbol) ∧
    e.2.2.2 = survivingCloses df v ∧
    e.2.1 = (if strictDecB (survivingCloses df v) then "back"
             else if strictIncB (survivingCloses df v) then "contango"
             else "flat") := by
  unfold stepEntry at h
  split at h
  case h_2 => cases h
  case h_1 o heq =>
      subst h
      unfold term_structure_step at heq
      rw [if_pos (sorted_variety_all_numeric df hall v)] at heq
      by_cases hlen : ((positiveCloses df v).map (·.symbol)).length < 2
      · rw [if_pos hlen] at heq
        cases heq
      · rw [if_neg hlen] at heq
        obtain rfl := Option.some.inj (Except.ok.inj heq)
        refine ⟨rfl, ?_, rfl, rfl, rfl⟩
        rw [List.length_map] at hlen
        omega

lemma step_not_error (df : List PriceRow)
    (hall : ∀ r ∈ df, closeIsNum r.close = true) (v : String) :
    ¬term_structure_step df v = Except.error () := by
  unfold term_structure_step
  rw [if_pos (sorted_variety_all_numeric df hall v)]
  intro hcontra
  by_cases hl : ((positiveCloses df v).map (·.symbol)).length < 2
  · rw [if_pos hl] at hcontra
    cases hcontra
  · rw [if_neg hl] at hcontra
    cases hcontra

lemma term_structure_fold_error (df : List PriceRow) (vs : List String) :
    vs.foldl
      (fun acc v =>
        match acc with
        | Except.error e => Except.error e
        | Except.ok results =>
            match term_structure_step df v with
            | Except.error e => Except.error e
            | Except.ok none => Except.ok results
            | Except.ok (some r) => Except.ok (results ++ [r]))
      (Except.error ()) = Except.error () := by
  induction vs with
  | nil => rfl
  | cons v vs ih => simpa using ih

lemma term_structure_fold_ok (df : List PriceRow) (vs : List String)
    (acc : List (String × String × List String × List ℚ))
    (h : ∀ v ∈ vs, ¬term_structure_step df v = Except.error ()) :
    vs.foldl
      (fun acc v =>
        match acc with
        | Except.error e => Except.error e
        | Except.ok results =>
            match term_structure_step df v with
            | Except.error e => Except.error e
            | Except.ok none => Except.ok results
            | Except.ok (some r) => Except.ok (results ++ [r]))
      (Except.ok acc) =
    Except.ok (acc ++ vs.filterMap (fun v => stepEntry df v)) := by
  induction vs generalizing acc with
  | nil => simp
  | cons v vs ih =>
      have hv := h v (by simp)
      have hvs : ∀ w ∈ vs, ¬term_structure_step df w = Except.error () :=
        fun w hw => h w (by simp [hw])
      cases hstep : term_structure_step df v with
      | error u =>
          cases u
          exact absurd hstep hv
      | ok o =>
          cases o with
          | none =>
              have hse : stepEntry df v = none := by simp [stepEntry, hstep]
              simp only [List.foldl_cons, hstep]
              rw [ih _ hvs, List.filterMap_cons]
              simp [hse]
          | some r =>
              have hse : stepEntry df v = some r := by simp [stepEntry, hstep]
              simp only [List.foldl_cons, hstep]
              rw [ih _ hvs, List.filterMap_cons]
              simp [hse, List.append_assoc]

lemma analyze_eq_filterMap (df : List PriceRow)
    (hall : ∀ r ∈ df, closeIsNum r.close = true) :
    analyze_term_structure_with_prices df =
      (uniqFirst (df.map (·.variety))).filterMap (fun v => stepEntry df v) := by
  unfold analyze_term_structure_with_prices
  rw [term_structure_fold_ok df _ [] (fun v _ => step_not_error df hall v)]
  simp

lemma term_structure_fold_hits_error (df : List PriceRow) (vs : List String)
    (acc : List (String × String × List String × List ℚ))
    (h : ∃ v ∈ vs, term_structure_step df v = Except.error ()) :
    vs.foldl
      (fun acc v =>
        match acc with
        | Except.error e => Except.error e
        | Except.ok results =>
            match term_structure_step df v with
            | Except.error e => Except.error e
            | Except.ok none => Except.ok results
            | Except.ok (some r) => Except.ok (results ++ [r]))
      (Except.ok acc) = Except.error () := by
  induction vs generalizing acc with
  | nil => simp at h
  | cons v vs ih =>
      cases hstep : term_structure_step df v with
      | error u =>
          cases u
          simp only [List.foldl_cons, hstep]
          exact term_structure_fold_error df vs
      | ok o =>
          have hvs : ∃ w ∈ vs, term_structure_step df w = Except.error () := by
            obtain ⟨w, hw, hsw⟩ := h
            rcases List.mem_cons.1 hw with rfl | hw'
            · rw [hstep] at hsw
              cases hsw
            · exact ⟨w, hw', hsw⟩
          cases o with
          | none =>
              simp only [List.foldl_cons, hstep]
              exact ih _ hvs
          | some r =>
              simp only [List.foldl_cons, hstep]
              exact ih _ hvs

lemma analyze_eq_empty_of_nonnumeric (df : List PriceRow)
    (h : ∃ r ∈ df, closeIsNum r.close = false) :
    analyze_term_structure_with_prices df = [] := by
  obtain ⟨r, hr, hcn⟩ := h
  have hv : r.variety ∈ uniqFirst (df.map (·.variety)) := by
    rw [mem_uniqFirst]
    exact List.mem_map.2 ⟨r, hr, rfl⟩
  have hcond : ¬((sortBySymbol (varietyRows df r.variety)).all
      (fun s => closeIsNum s.close) = true) := by
    intro hcontra
    rw [List.all_eq_true] at hcontra
    have hmem : r ∈ sortBySymbol (varietyRows df r.variety) := by
      rw [mem_sortBySymbol]
      exact List.mem_filter.2 ⟨hr, by simp⟩
    have hcc := hcontra r hmem
    rw [hcn] at hcc
    cases hcc
  have hstep : term_structure_step df r.variety = Except.error () := by
    unfold term_structure_step
    rw [if_neg hcond]
  simp only [analyze_term_structure_with_prices]
  rw [term_structure_fold_hits_error df _ [] ⟨r.variety, hv, hstep⟩]

/-- C10: under numeric close data, the classifier first discards points
whose close is missing or not strictly positive: a variety left with
fewer than 2 surviving points is silently omitted from the results, and
every emitted entry's contract list and price sequence are exactly the
surviving points of its variety. -/
theorem term_structure_filters_before_classifying (df : List PriceRow)
    (hall : ∀ r ∈ df, closeIsNum r.close = true) :
    (∀ v, (positiveCloses df v).length < 2 →
      v ∉ (analyze_term_structure_with_prices df).map (·.1)) ∧
    (∀ e ∈ analyze_term_structure_with_prices df,
      e.2.2.1 = (positiveCloses df e.1).map (·.symbol) ∧
      e.2.2.2 = survivingCloses df e.1) := by
  constructor
  · intro v hlen hmem
    rw [analyze_eq_filterMap df hall, List.mem_map] at hmem
    obtain ⟨e, he, hfst⟩ := hmem
    rw [List.mem_filterMap] at he
    obtain ⟨w, hw, hsw⟩ := he
    have hspec := stepEntry_some_spec df hall w e hsw
    rw [hspec.1] at hfst
    subst hfst
    have := hspec.2.1
    omega
  · intro e he
    rw [analyze_eq_filterMap df hall, List.mem_filterMap] at he
    obtain ⟨w, hw, hsw⟩ := he
    have hspec := stepEntry_some_spec df hall w e hsw
    rw [hspec.1]
    exact ⟨hspec.2.2.1, hspec.2.2.2.1⟩

/-- Two raw contracts of variety `cu`, neither with a positive close,
plus a classifiable variety `zn`. -/
def c10Tbl : List PriceRow :=
  [ ⟨"cu2401", Cell.num (-1), "cu"⟩, ⟨"cu2402", Cell.null, "cu"⟩,
    ⟨"zn2401", Cell.num 5, "zn"⟩, ⟨"zn2402", Cell.num 6, "zn"⟩ ]

/-- Witness for C10: variety `cu` has 2 raw contracts but fewer than 2
positive-price contracts and is omitted from the classification. -/
theorem term_structure_filters_before_classifying_witness :
    "cu" ∉ (analyze_term_structure_with_prices c10Tbl).map (·.1) :=
  (term_structure_filters_before_classifying c10Tbl (by decide)).1 "cu" (by decide)

/-- C6 (amended): under numeric close data every emitted entry has at
least 2 surviving prices and is labelled `back` exactly when they are
strictly decreasing, `contango` exactly when strictly increasing, and
`flat` otherwise, while a variety with fewer than 2 surviving points is
omitted from the results (no "unclassifiable" value is emitted for it);
and the function never raises: a string-typed close makes it return the
empty result list (the caught exception path). -/
theorem term_structure_labels (df : List PriceRow) :
    ((∀ r ∈ df, closeIsNum r.close = true) →
      (∀ e ∈ analyze_term_structure_with_prices df,
        2 ≤ e.2.2.2.length ∧
        (e.2.1 = "back" ↔ strictDecB e.2.2.2 = true) ∧
        (e.2.1 = "contango" ↔ strictIncB e.2.2.2 = true) ∧
        (e.2.1 = "flat" ↔
          strictDecB e.2.2.2 = false ∧ strictIncB e.2.2.2 = false)) ∧
      (∀ v, (positiveCloses df v).length < 2 →
        v ∉ (analyze_term_structure_with_prices df).map (·.1))) ∧
    ((∃ r ∈ df, closeIsNum r.close = false) →
      analyze_term_structure_with_prices df = []) := by
  constructor
  · intro hall
    constructor
    · intro e he
      rw [analyze_eq_filterMap df hall, List.mem_filterMap] at he
      obtain ⟨w, hw, hsw⟩ := he
      have hspec := stepEntry_some_spec df hall w e hsw
      have hcl : e.2.2.2 = survivingCloses df w := hspec.2.2.2.1
      have hlen : 2 ≤ e.2.2.2.length := by
        rw [hcl, survivingCloses_length]
        exact hspec.2.1
      have hexcl := strict_dec_inc_exclusive e.2.2.2 hlen
      rw [hcl] at hexcl
      refine ⟨hlen, ?_⟩
      rw [hcl, hspec.2.2.2.2]
      by_cases hd : strictDecB (survivingCloses df w) = true
      · have hi : strictIncB (survivingCloses df w) = false :=
          Bool.eq_false_iff.mpr (fun hc => hexcl ⟨hd, hc⟩)
        simp +decide [hd, hi]
      · have hd' : strictDecB (survivingCloses df w) = false :=
          Bool.eq_false_iff.mpr hd
        by_cases hi : strictIncB (survivingCloses df w) = true
        · simp +decide [hd, hd', hi]
        · have hi' : strictIncB (survivingCloses df w) = false :=
            Bool.eq_false_iff.mpr hi
          simp +decide [hd, hd', hi, hi']
    · intro v hlen hmem
      rw [analyze_eq_filterMap df hall, List.mem_map] at hmem
      obtain ⟨e, he, hfst⟩ := hmem
      rw [List.mem_filterMap] at he
      obtain ⟨w, hw, hsw⟩ := he
      have hspec := stepEntry_some_spec df hall w e hsw
      rw [hspec.1] at hfst
      subst hfst
      have := hspec.2.1
      omega
  · exact analyze_eq_empty_of_nonnumeric df

/-- A single-contract variety for the C6 counterexample. -/
def c6Tbl : List PriceRow := [⟨"al2401", Cell.num 100, "al"⟩]

/-- Counterexample to C6 as stated: a variety with a single (positive,
numeric) price point is not "reported as unclassifiable" — it yields no
entry at all: the result list is empty although the variety exists. -/
theorem term_structure_short_counterexample :
    "al" ∈ uniqFirst (c6Tbl.map (·.variety)) ∧
    analyze_term_structure_with_prices c6Tbl = [] :=
  ⟨by decide, by decide⟩

/-- Strictly decreasing three-point variety for the C6 witness. -/
def c6wTbl : List PriceRow :=
  [ ⟨"rb2401", Cell.num 100, "rb"⟩, ⟨"rb2402", Cell.num 90, "rb"⟩,
    ⟨"rb2403", Cell.num 80, "rb"⟩ ]

/-- Witness for the amended C6: the spec's example [100, 90, 80] is
classified `back`. -/
theorem term_structure_labels_witness :
    (("rb", "back", ["rb2401", "rb2402", "rb2403"],
        [(100 : ℚ), 90, 80]) ∈ analyze_term_structure_with_prices c6wTbl) ∧
    strictDecB [(100 : ℚ), 90, 80] = true := by
  have h := ((term_structure_labels c6wTbl).1 (by decide)).1
    ("rb", "back", ["rb2401", "rb2402", "rb2403"], [100, 90, 80]) (by decide)
  exact ⟨by decide, h.2.1.mp rfl⟩

/-!
### AnalysisOrchestrator (`analyze_all_positions`,
futures_position_analysis.py lines 294–328)

The per-contract loop: normalize each contract's raw table, skip it
entirely when normalization returns `None`, otherwise store one Signal
per registered strategy plus the normalized table.
-/

/-- One contract's stored analysis result. -/
structure ContractResult where
  strategies : List (String × Signal)
  raw_data : List ProcRow
deriving DecidableEq, Repr

/-- The registered strategies (lines 171–174).  The PowerChange strategy
reads only the four aggregate totals of the processed dict. -/
def strategy_list : List (String × (ProcessedData → Signal)) :=
  [("多空力量变化策略", fun d =>
      PowerChangeStrategy.analyze
        ⟨d.total_long, d.total_short, d.total_long_chg, d.total_short_chg⟩),
   ("蜘蛛网策略", SpiderWebStrategy.analyze)]

/-- `analyze_all_positions` restricted to one already-loaded mapping of
contract name → raw table. -/
def analyze_all_positions (input : List (String × RawTable)) :
    List (String × ContractResult) :=
  input.filterMap (fun p =>
    (process_position_data p.2).map (fun d =>
      (p.1, { strategies := strategy_list.map (fun s => (s.1, s.2 d))
              raw_data := d.raw_data })))

/-- From the spec's words (C4): the number of contracts skipped because
their normalization failed.  The source never computes this value. -/
def specSkippedCount (input : List (String × RawTable)) : ℕ :=
  (input.filter (fun p => (process_position_data p.2).isNone)).length

/-- C4 (amended): the orchestrator's output keys are exactly the input
contracts whose table passes the schema check (in input order) — a
contract is omitted iff, after alias resolution, it structurally lacks a
required column — and every emitted contract carries one Signal per
registered strategy. -/
theorem analyze_all_positions_spec (input : List (String × RawTable)) :
    (analyze_all_positions input).map (·.1) =
      (input.filter (fun p => (process_position_data p.2).isSome)).map (·.1) ∧
    (∀ p ∈ input, (process_position_data p.2).isSome = requiredColumnsPresent p.2) ∧
    (∀ e ∈ analyze_all_positions input,
      e.2.strategies.map (·.1) = ["多空力量变化策略", "蜘蛛网策略"]) := by
  refine ⟨?_, ?_, ?_⟩
  · induction input with
    | nil => rfl
    | cons p input ih =>
        simp only [analyze_all_positions] at ih ⊢
        cases hp : process_position_data p.2 with
        | none => simp [List.filterMap_cons, List.filter_cons, hp, ih]
        | some d => simp [List.filterMap_cons, List.filter_cons, hp, ih]
  · intro p _
    cases hc : requiredColumnsPresent p.2 with
    | true => simp [process_position_data, hc]
    | false => simp [process_position_data, hc]
  · intro e he
    unfold analyze_all_positions at he
    rw [List.mem_filterMap] at he
    obtain ⟨p, hp, heq⟩ := he
    cases hd : process_position_data p.2 with
    | none =>
        rw [hd] at heq
        cases heq
    | some d =>
        rw [hd] at heq
        obtain rfl := Option.some.inj heq
        rfl

/-- A contract table with all required columns present. -/
def c4Good : RawTable :=
  { cols := required_columns
    rows := [⟨"席位子", Cell.num 5, Cell.num 1, "席位丑", Cell.num 4,
      Cell.num (-1), Cell.num 9⟩] }

/-- A contract table structurally missing the `vol` column. -/
def c4Bad : RawTable :=
  { cols := ["long_party_name", "long_open_interest", "long_open_interest_chg",
      "short_party_name", "short_open_interest", "short_open_interest_chg"]
    rows := [⟨"席位寅", Cell.num 7, Cell.num 2, "席位卯", Cell.num 6,
      Cell.num (-2), Cell.num 11⟩] }

/-- Counterexample to C4 as stated: a run that skips one contract
(missing `vol`) produces *exactly the same output* as a run that never
saw it — the contract is omitted from the mapping, but no count of
skipped contracts is reported anywhere in the result, so the omission is
not distinguishable from absence. -/
theorem orchestrator_no_skip_count_counterexample :
    analyze_all_positions [("郑商所_苹果", c4Good), ("郑商所_红枣", c4Bad)] =
      analyze_all_positions [("郑商所_苹果", c4Good)] ∧
    specSkippedCount [("郑商所_苹果", c4Good), ("郑商所_红枣", c4Bad)] = 1 ∧
    specSkippedCount [("郑商所_苹果", c4Good)] = 0 ∧
    "郑商所_红枣" ∉
      (analyze_all_positions
        [("郑商所_苹果", c4Good), ("郑商所_红枣", c4Bad)]).map (·.1) :=
  ⟨rfl, by decide, by decide, by decide⟩

/-- Witness for the amended C4: the deficient contract is dropped from
the output keys while the sound one is kept, and the schema check is
what decides it. -/
theorem analyze_all_positions_spec_witness :
    (analyze_all_positions
      [("郑商所_棉花", c4Good), ("郑商所_白糖", c4Bad)]).map (·.1) =
      ["郑商所_棉花"] ∧
    (process_position_data c4Bad).isSome = requiredColumnsPresent c4Bad := by
  have h := analyze_all_positions_spec [("郑商所_棉花", c4Good), ("郑商所_白糖", c4Bad)]
  refine ⟨?_, h.2.1 ("郑商所_白糖", c4Bad) (by decide)⟩
  rw [h.1]
  decide
